import Mathlib

/-!
A verification development for the Capsule GlobalResourceQuota subsystem.

The Go sources are shallowly embedded: Kubernetes `resource.Quantity`
values are modelled as `Int` (the arithmetic used by the code — `Add`,
`Sub`, `Cmp`, `Sign`, `Set(0)` — is exact fixed-point arithmetic, which
the integers model faithfully for the relations proved here), and Go
maps (`corev1.ResourceList`, the status-quota map, label maps) are
modelled as association lists with unique keys, written to with an
update-or-append operation.  Stateful controller/webhook code becomes
explicit state passing over a `Cluster` value; the orchestrator client
is modelled as total in-memory reads and writes, while the
namespace-selector evaluation (an external collaborator) is modelled by
the answer it returns, carried on each selector entry.  Retry-on-conflict
loops run their closure once (there is no concurrency in the model), and
log/metric/event emission is dropped as it has no observable state.
-/

namespace Capsule

/-- Kubernetes `resource.Quantity`, modelled as an exact integer. -/
abbrev Quantity := Int

/-- Embeds `corev1.ResourceName`. -/
abbrev ResourceName := String

/-- Embeds `corev1.ResourceList`: a map from resource names to quantities,
modelled as an association list with unique keys. -/
abbrev ResourceList := List (ResourceName × Quantity)

namespace RList

/-- Map lookup: `v, ok := m[r]` with `ok` encoded by `Option`. -/
def lookup (l : ResourceList) (r : ResourceName) : Option Quantity :=
  match l with
  | [] => none
  | (k, v) :: rest => if k = r then some v else lookup rest r

/-- Map write `m[r] = v`: update in place when the key is present,
append otherwise. -/
def setv (l : ResourceList) (r : ResourceName) (v : Quantity) : ResourceList :=
  match l with
  | [] => [(r, v)]
  | (k, w) :: rest => if k = r then (k, v) :: rest else (k, w) :: setv rest r v

/-- The key set of a resource list. -/
def keys (l : ResourceList) : List ResourceName := l.map Prod.fst

theorem lookup_setv_self (l : ResourceList) (r : ResourceName) (v : Quantity) :
    lookup (setv l r v) r = some v := by
  induction l with
  | nil => simp [setv, lookup]
  | cons p rest ih =>
    obtain ⟨k, w⟩ := p
    by_cases h : k = r
    · simp [setv, h, lookup]
    · simp [setv, h, lookup, ih]

theorem lookup_setv_ne (l : ResourceList) (r s : ResourceName) (v : Quantity)
    (h : r ≠ s) : lookup (setv l r v) s = lookup l s := by
  induction l with
  | nil => simp [setv, lookup, h]
  | cons p rest ih =>
    obtain ⟨k, w⟩ := p
    by_cases hk : k = r
    · subst hk
      simp [setv, lookup, h, ih]
    · simp [setv, hk, lookup, ih]

theorem keys_setv_of_mem (l : ResourceList) (r : ResourceName) (v : Quantity)
    (h : r ∈ keys l) : keys (setv l r v) = keys l := by
  induction l with
  | nil => simp [keys] at h
  | cons p rest ih =>
    obtain ⟨k, w⟩ := p
    by_cases hk : k = r
    · simp [setv, hk, keys]
    · simp only [keys, List.map_cons, List.mem_cons] at h
      rcases h with h | h
      · exact absurd h.symm hk
      · have ih' := ih (by simpa [keys] using h)
        simp only [keys] at ih'
        simp [setv, hk, keys, ih']

theorem lookup_isSome_iff_mem_keys (l : ResourceList) (r : ResourceName) :
    (lookup l r).isSome = true ↔ r ∈ keys l := by
  induction l with
  | nil => simp [lookup, keys]
  | cons p rest ih =>
    obtain ⟨k, w⟩ := p
    by_cases hk : k = r
    · simp [lookup, keys, hk]
    · simp [lookup, keys, hk, ih, Ne.symm hk]

theorem lookup_eq_none_of_not_mem_keys (l : ResourceList) (r : ResourceName)
    (h : r ∉ keys l) : lookup l r = none := by
  cases hs : lookup l r with
  | none => rfl
  | some v =>
    exact absurd ((lookup_isSome_iff_mem_keys l r).mp (by simp [hs])) h

/-- Build a new map by visiting each entry of `l` and assigning
`f key value` under the same key — the shape of the Go loops
`for r, v := range m { out[r] = f(r, v) }` building a fresh map `out`. -/
def mapv (f : ResourceName → Quantity → Quantity) (l : ResourceList) : ResourceList :=
  l.map (fun p => (p.1, f p.1 p.2))

theorem lookup_mapv (f : ResourceName → Quantity → Quantity) (l : ResourceList)
    (r : ResourceName) : lookup (mapv f l) r = (lookup l r).map (f r) := by
  induction l with
  | nil => simp [mapv, lookup]
  | cons p rest ih =>
    obtain ⟨k, w⟩ := p
    by_cases hk : k = r
    · subst hk
      simp [mapv, lookup]
    · simp only [mapv, List.map_cons, lookup, hk, if_false]
      exact ih

theorem keys_mapv (f : ResourceName → Quantity → Quantity) (l : ResourceList) :
    keys (mapv f l) = keys l := by
  induction l with
  | nil => rfl
  | cons p rest ih => simp [mapv, keys]

theorem mem_mapv {f : ResourceName → Quantity → Quantity} {l : ResourceList}
    {p : ResourceName × Quantity} (h : p ∈ mapv f l) :
    ∃ q ∈ l, p = (q.1, f q.1 q.2) := by
  simp only [mapv, List.mem_map] at h
  obtain ⟨q, hq, hpq⟩ := h
  exact ⟨q, hq, hpq.symm⟩

end RList

/-- A generic association-list lookup for maps whose values are not
quantities (status rows, spec items, label maps). -/
def alookup {α : Type} (l : List (String × α)) (k : String) : Option α :=
  match l with
  | [] => none
  | (k', v) :: rest => if k' = k then some v else alookup rest k

/-- Association-list write, update-or-append, for generic value types. -/
def aset {α : Type} (l : List (String × α)) (k : String) (v : α) : List (String × α) :=
  match l with
  | [] => [(k, v)]
  | (k', w) :: rest => if k' = k then (k', v) :: rest else (k', w) :: aset rest k v

theorem alookup_aset_self {α : Type} (l : List (String × α)) (k : String) (v : α) :
    alookup (aset l k v) k = some v := by
  induction l with
  | nil => simp [aset, alookup]
  | cons p rest ih =>
    obtain ⟨k', w⟩ := p
    by_cases h : k' = k
    · simp [aset, h, alookup]
    · simp [aset, h, alookup, ih]

theorem alookup_aset_ne {α : Type} (l : List (String × α)) (k j : String) (v : α)
    (h : k ≠ j) : alookup (aset l k v) j = alookup l j := by
  induction l with
  | nil => simp [aset, alookup, h]
  | cons p rest ih =>
    obtain ⟨k', w⟩ := p
    by_cases hk : k' = k
    · subst hk
      simp [aset, alookup, h, ih]
    · simp [aset, hk, alookup, ih]

/-- Embeds `corev1.ResourceQuotaStatus`: the `(hard, used)` pair kept per item
in `GlobalResourceQuota.Status.Quota`. -/
structure ResourceQuotaStatus where
  hard : ResourceList
  used : ResourceList
  deriving Repr, DecidableEq

/-- A namespace object, with the fields the subsystem inspects:
name, deletion timestamp (`0` models the zero timestamp, i.e. not being
deleted), labels, and whether its phase is `Active`. -/
structure NamespaceObj where
  name : String
  deletionTimestamp : Nat
  labels : List (String × String)
  phaseActive : Bool
  deriving Repr, DecidableEq

/-- One entry of `GlobalResourceQuotaSpec.Selectors`.  The label-based
namespace-selector evaluation (`selector.GetMatchingNamespaces`) is an
external collaborator (orchestrator client); it is modelled by the
answer it returns: `none` models the call failing, `some l` the selected
namespaces. -/
structure GlobalResourceQuotaSelector where
  mustTenantNamespace : Bool
  matched : Option (List NamespaceObj)
  deriving Repr, DecidableEq

/-- Embeds `GlobalResourceQuota`: spec (`active`, `selectors`, `items` mapping
item name to its declared `hard` resource list) and status (`active`,
`namespaces`, `size`, and the per-item `quota` rows). Passthrough fields
(`scopes`, `scopeSelector`) do not interact with any modelled logic and
are omitted. -/
structure GlobalResourceQuota where
  name : String
  active : Bool
  selectors : List GlobalResourceQuotaSelector
  items : List (String × ResourceList)
  statusActive : Bool
  statusNamespaces : List String
  statusSize : Nat
  statusQuota : List (String × ResourceQuotaStatus)
  deriving Repr, DecidableEq

namespace GlobalResourceQuota

/-- Embeds `GlobalResourceQuota.GetQuotaSpace`
(api/v1beta2/globalresourcequota_func.go): per-resource remaining
headroom `max(0, hard − used)` over the status row when one exists
(missing `used` defaults to zero, negative remainders are clamped to
zero by `remaining.Sign() == -1 → remaining.Set(0)`), else the declared
`spec.Hard` copied verbatim; `none` models the `"no item found"` error. -/
def GetQuotaSpace (g : GlobalResourceQuota) (index : String) : Option ResourceList :=
  match alookup g.statusQuota index with
  | some quotaStatus =>
      some (RList.mapv
        (fun r hard => max 0 (hard - ((RList.lookup quotaStatus.used r).getD 0)))
        quotaStatus.hard)
  | none =>
      match alookup g.items index with
      | some quotaSpec => some quotaSpec
      | none => none

/-- Embeds `GlobalResourceQuota.GetAggregatedQuotaSpace`
(api/v1beta2/globalresourcequota_func.go): as `GetQuotaSpace` over the
status row, but after clamping it adds back the caller's `used` value
when that resource is present in the `used` argument. -/
def GetAggregatedQuotaSpace (g : GlobalResourceQuota) (index : String)
    (used : ResourceList) : Option ResourceList :=
  match alookup g.statusQuota index with
  | some quotaStatus =>
      some (RList.mapv
        (fun r hard =>
          max 0 (hard - ((RList.lookup quotaStatus.used r).getD 0))
            + ((RList.lookup used r).getD 0))
        quotaStatus.hard)
  | none =>
      match alookup g.items index with
      | some quotaSpec => some quotaSpec
      | none => none

end GlobalResourceQuota

/-! ### Label keys

`GetTypeLabel` and `GetGlobalResourceQuotaTypeLabel` live in the
`pkg/utils` package, whose source is not part of this tree; they return
fixed label keys. -/

/-- Modelled from the spec: the tenant-membership label key returned by
`GetTypeLabel(&Tenant{})` (the missing `pkg/utils` helper); the spec
only requires namespaces "carrying a tenant-membership label". -/
def tenantLabel : String := "capsule.clastix.io/tenant"

/-- Modelled from the spec: the managed-by label key
`<domain>/managed-by-global-quota` returned by
`GetTypeLabel(&GlobalResourceQuota{})` (the missing `pkg/utils` helper). -/
def managedByLabel : String := "capsule.clastix.io/managed-by-global-quota"

/-- Modelled from the spec: the item label key `<domain>/global-quota-item`
returned by `GetGlobalResourceQuotaTypeLabel` (the missing `pkg/utils`
helper). -/
def itemLabel : String := "capsule.clastix.io/global-quota-item"

/-- Embeds `_, ok := obj.Labels[key]`: whether a label key is present. -/
def hasLabel (labels : List (String × String)) (key : String) : Bool :=
  (alookup labels key).isSome

/-! ### Selector resolution (controllers/globalquota/utils.go) -/

/-- The inner loop of `GetMatchingGlobalQuotaNamespaces`
(controllers/globalquota/utils.go, lines 58–76) over the namespaces one
selector returned: skip namespaces being deleted, skip names already
seen, and — for `MustTenantNamespace` selectors — skip namespaces
without the tenant label; otherwise record the name as seen and append
the namespace. -/
def collectSelected (must : Bool) :
    List NamespaceObj → List String → List NamespaceObj →
    List String × List NamespaceObj
  | [], seen, acc => (seen, acc)
  | ns :: rest, seen, acc =>
    if ns.deletionTimestamp ≠ 0 then collectSelected must rest seen acc
    else if ns.name ∈ seen then collectSelected must rest seen acc
    else if must && !(hasLabel ns.labels tenantLabel) then
      collectSelected must rest seen acc
    else collectSelected must rest (ns.name :: seen) (acc ++ [ns])

/-- The outer loop of `GetMatchingGlobalQuotaNamespaces` over the
selector entries: a selector whose `GetMatchingNamespaces` call failed
is skipped (`continue`), otherwise its namespaces are folded in. -/
def matchingNamespacesLoop :
    List GlobalResourceQuotaSelector → List String → List NamespaceObj →
    List NamespaceObj
  | [], _, acc => acc
  | s :: rest, seen, acc =>
    match s.matched with
    | none => matchingNamespacesLoop rest seen acc
    | some selected =>
      let p := collectSelected s.mustTenantNamespace selected seen acc
      matchingNamespacesLoop rest p.1 p.2

/-- Embeds `GetMatchingGlobalQuotaNamespaces` (controllers/globalquota/utils.go):
returns the accumulated namespaces together with the returned error,
which stays `nil` (`none`) on the selector-loop path. -/
def GetMatchingGlobalQuotaNamespaces
    (selectors : List GlobalResourceQuotaSelector) :
    List NamespaceObj × Option String :=
  (matchingNamespacesLoop selectors [] [], none)

/-- Modelled from the spec: the per-entry filter of I1/step 2 — keep a
namespace when it is not marked for deletion and, for
`mustTenantNamespace` entries, carries the tenancy label. -/
def selectorEntryKeeps (s : GlobalResourceQuotaSelector)
    (ns : NamespaceObj) : Bool :=
  decide (ns.deletionTimestamp = 0) &&
    (!s.mustTenantNamespace || hasLabel ns.labels tenantLabel)

/-- Modelled from the spec: the candidate namespaces of all selector
entries in order, each entry's failures dropped and its namespaces
filtered per `selectorEntryKeeps`. -/
def candidateStream (selectors : List GlobalResourceQuotaSelector) :
    List NamespaceObj :=
  (selectors.map (fun s => (s.matched.getD []).filter (selectorEntryKeeps s))).flatten

/-- First-occurrence deduplication by namespace name, excluding the
names in `seen`; returns the extended seen set and the kept namespaces. -/
def dedupFirstByName (seen : List String) :
    List NamespaceObj → List String × List NamespaceObj
  | [] => (seen, [])
  | ns :: rest =>
    if ns.name ∈ seen then dedupFirstByName seen rest
    else
      let p := dedupFirstByName (ns.name :: seen) rest
      (p.1, ns :: p.2)

/-- Modelled from the spec: selector resolution as the spec words it —
"evaluate each selector entry in order; accumulate a deduplicated
ordered set of candidate namespaces", first matching entry winning. -/
def resolveSelectorsSpec (selectors : List GlobalResourceQuotaSelector) :
    List NamespaceObj :=
  (dedupFirstByName [] (candidateStream selectors)).2

theorem collectSelected_eq (must : Bool) (selected : List NamespaceObj) :
    ∀ (seen : List String) (acc : List NamespaceObj),
    collectSelected must selected seen acc =
      ((dedupFirstByName seen (selected.filter
          (fun ns => decide (ns.deletionTimestamp = 0) &&
            (!must || hasLabel ns.labels tenantLabel)))).1,
       acc ++ (dedupFirstByName seen (selected.filter
          (fun ns => decide (ns.deletionTimestamp = 0) &&
            (!must || hasLabel ns.labels tenantLabel)))).2) := by
  induction selected with
  | nil => intro seen acc; simp [collectSelected, dedupFirstByName]
  | cons ns rest ih =>
    intro seen acc
    by_cases hdel : ns.deletionTimestamp = 0
    · by_cases hseen : ns.name ∈ seen
      · rcases Bool.dichotomy must with hmu | hmu <;> subst hmu <;>
          cases hlab : hasLabel ns.labels tenantLabel <;>
          simp [collectSelected, hdel, hseen, hlab, List.filter_cons,
            dedupFirstByName, ih]
      · rcases Bool.dichotomy must with hmu | hmu <;> subst hmu <;>
          cases hlab : hasLabel ns.labels tenantLabel <;>
          simp [collectSelected, hdel, hseen, hlab, List.filter_cons,
            dedupFirstByName, ih]
    · simp [collectSelected, hdel, List.filter_cons, ih]

theorem dedupFirstByName_append (seen : List String) (a b : List NamespaceObj) :
    dedupFirstByName seen (a ++ b) =
      ((dedupFirstByName (dedupFirstByName seen a).1 b).1,
       (dedupFirstByName seen a).2 ++ (dedupFirstByName (dedupFirstByName seen a).1 b).2) := by
  induction a generalizing seen with
  | nil => simp [dedupFirstByName]
  | cons ns rest ih =>
    by_cases hseen : ns.name ∈ seen
    · simp [dedupFirstByName, hseen, ih]
    · simp [dedupFirstByName, hseen, ih]

theorem matchingNamespacesLoop_eq (selectors : List GlobalResourceQuotaSelector) :
    ∀ (seen : List String) (acc : List NamespaceObj),
    matchingNamespacesLoop selectors seen acc =
      acc ++ (dedupFirstByName seen (candidateStream selectors)).2 := by
  induction selectors with
  | nil => intro seen acc; simp [matchingNamespacesLoop, candidateStream, dedupFirstByName]
  | cons s rest ih =>
    intro seen acc
    match hm : s.matched with
    | none =>
      simp [matchingNamespacesLoop, hm, candidateStream, ih]
    | some selected =>
      have hstream : candidateStream (s :: rest) =
          selected.filter (selectorEntryKeeps s) ++ candidateStream rest := by
        simp [candidateStream, hm]
      have hfil : selected.filter (selectorEntryKeeps s) =
          selected.filter (fun ns => decide (ns.deletionTimestamp = 0) &&
            (!s.mustTenantNamespace || hasLabel ns.labels tenantLabel)) := by
        rfl
      simp only [matchingNamespacesLoop, hm, collectSelected_eq, ih, hstream,
        dedupFirstByName_append, hfil, List.append_assoc]

theorem GetMatchingGlobalQuotaNamespaces_eq_resolveSpec
    (selectors : List GlobalResourceQuotaSelector) :
    (GetMatchingGlobalQuotaNamespaces selectors).1 = resolveSelectorsSpec selectors := by
  simp [GetMatchingGlobalQuotaNamespaces, resolveSelectorsSpec,
    matchingNamespacesLoop_eq]

theorem dedupFirstByName_names (l : List NamespaceObj) :
    ∀ seen : List String,
      ((dedupFirstByName seen l).2.map NamespaceObj.name).Nodup ∧
      ∀ x ∈ (dedupFirstByName seen l).2.map NamespaceObj.name, x ∉ seen := by
  induction l with
  | nil => intro seen; simp [dedupFirstByName]
  | cons ns rest ih =>
    intro seen
    by_cases hseen : ns.name ∈ seen
    · simpa [dedupFirstByName, hseen] using ih seen
    · have h := ih (ns.name :: seen)
      refine ⟨?_, ?_⟩
      · simp only [dedupFirstByName, hseen, if_false, List.map_cons, List.nodup_cons]
        exact ⟨fun hmem => (h.2 _ hmem) (List.mem_cons_self _ _), h.1⟩
      · intro x hx
        simp only [dedupFirstByName, hseen, if_false, List.map_cons,
          List.mem_cons] at hx
        rcases hx with rfl | hx
        · exact hseen
        · exact fun hmem => (h.2 x hx) (List.mem_cons_of_mem _ hmem)

theorem mem_dedupFirstByName {l : List NamespaceObj} {ns : NamespaceObj} :
    ∀ {seen : List String}, ns ∈ (dedupFirstByName seen l).2 → ns ∈ l := by
  induction l with
  | nil => intro seen h; simp [dedupFirstByName] at h
  | cons x rest ih =>
    intro seen h
    by_cases hseen : x.name ∈ seen
    · simp only [dedupFirstByName, hseen, if_true] at h
      exact List.mem_cons_of_mem _ (ih h)
    · simp only [dedupFirstByName, hseen, if_false, List.mem_cons] at h
      rcases h with rfl | h
      · exact List.mem_cons_self _ _
      · exact List.mem_cons_of_mem _ (ih h)

theorem mem_candidateStream {selectors : List GlobalResourceQuotaSelector}
    {ns : NamespaceObj} (h : ns ∈ candidateStream selectors) :
    ∃ s ∈ selectors, ∃ lst, s.matched = some lst ∧ ns ∈ lst ∧
      selectorEntryKeeps s ns = true := by
  simp only [candidateStream, List.mem_flatten, List.mem_map] at h
  obtain ⟨chunk, ⟨s, hs, rfl⟩, hns⟩ := h
  rw [List.mem_filter] at hns
  match hm : s.matched with
  | none => rw [hm] at hns; simp at hns
  | some lst =>
    rw [hm] at hns
    exact ⟨s, hs, lst, hm, by simpa using hns.1, hns.2⟩

/-- C9. For every GlobalResourceQuota, selector resolution evaluates
the entries in order and produces a duplicate-free namespace list in
which a namespace matched by several entries is kept once, attributed
to the first matching entry (this is exactly the content of the
refinement equality with `resolveSelectorsSpec`); namespaces marked for
deletion are excluded; and for entries with `mustTenantNamespace` set,
namespaces without the tenant-membership label are excluded. -/
theorem c9_selector_resolution (selectors : List GlobalResourceQuotaSelector) :
    (GetMatchingGlobalQuotaNamespaces selectors).1 = resolveSelectorsSpec selectors ∧
    (((GetMatchingGlobalQuotaNamespaces selectors).1.map NamespaceObj.name).Nodup) ∧
    ∀ ns ∈ (GetMatchingGlobalQuotaNamespaces selectors).1,
      ns.deletionTimestamp = 0 ∧
      ∃ s ∈ selectors, ∃ lst, s.matched = some lst ∧ ns ∈ lst ∧
        (s.mustTenantNamespace = true → hasLabel ns.labels tenantLabel = true) := by
  have heq := GetMatchingGlobalQuotaNamespaces_eq_resolveSpec selectors
  refine ⟨heq, ?_, ?_⟩
  · rw [heq]
    exact (dedupFirstByName_names (candidateStream selectors) []).1
  · intro ns hns
    rw [heq] at hns
    have hmem : ns ∈ candidateStream selectors :=
      mem_dedupFirstByName hns
    obtain ⟨s, hs, lst, hml, hin, hkeep⟩ := mem_candidateStream hmem
    have hk := hkeep
    simp only [selectorEntryKeeps, Bool.and_eq_true, decide_eq_true_eq,
      Bool.or_eq_true, Bool.not_eq_true'] at hk
    refine ⟨hk.1, s, hs, lst, hml, hin, ?_⟩
    intro hmu
    rcases hk.2 with h | h
    · rw [hmu] at h; exact absurd h (by simp)
    · exact h

/-- Witness for C9 on a concrete selector list: the namespace `alpha`
is produced and satisfies the guarantees. -/
def demoNsAlpha : NamespaceObj :=
  ⟨"alpha", 0, [(tenantLabel, "t1")], true⟩

def demoNsBeta : NamespaceObj := ⟨"beta", 0, [], true⟩

def demoNsGone : NamespaceObj := ⟨"gone", 7, [], true⟩

def demoSelectors : List GlobalResourceQuotaSelector :=
  [⟨true, some [demoNsAlpha, demoNsGone, demoNsBeta]⟩,
   ⟨false, some [demoNsBeta, demoNsAlpha]⟩]

theorem c9_selector_resolution_witness :
    demoNsAlpha.deletionTimestamp = 0 ∧
    ∃ s ∈ demoSelectors, ∃ lst, s.matched = some lst ∧ demoNsAlpha ∈ lst ∧
      (s.mustTenantNamespace = true →
        hasLabel demoNsAlpha.labels tenantLabel = true) :=
  (c9_selector_resolution demoSelectors).2.2 demoNsAlpha (by decide)

/-- C10. A selector entry whose namespace resolution fails is
silently skipped: the result equals the resolution over the successful
entries only, the returned error is always `nil`, and when every entry
fails the function returns the empty list with no error. -/
theorem c10_selector_failure_skipped (selectors : List GlobalResourceQuotaSelector) :
    (GetMatchingGlobalQuotaNamespaces selectors).2 = none ∧
    GetMatchingGlobalQuotaNamespaces selectors =
      GetMatchingGlobalQuotaNamespaces
        (selectors.filter (fun s => s.matched.isSome)) ∧
    ((∀ s ∈ selectors, s.matched = none) →
      GetMatchingGlobalQuotaNamespaces selectors = ([], none)) := by
  have hloop : ∀ (sel : List GlobalResourceQuotaSelector)
      (seen : List String) (acc : List NamespaceObj),
      matchingNamespacesLoop sel seen acc =
        matchingNamespacesLoop (sel.filter (fun s => s.matched.isSome)) seen acc := by
    intro sel
    induction sel with
    | nil => intro seen acc; rfl
    | cons s rest ih =>
      intro seen acc
      match hm : s.matched with
      | none => simp [matchingNamespacesLoop, hm, List.filter_cons, ih]
      | some selected => simp [matchingNamespacesLoop, hm, List.filter_cons, ih]
  refine ⟨rfl, ?_, ?_⟩
  · simp only [GetMatchingGlobalQuotaNamespaces]
    rw [hloop]
  · intro hall
    have hfil : selectors.filter (fun s => s.matched.isSome) = [] := by
      rw [List.filter_eq_nil_iff]
      intro s hs
      simp [hall s hs]
    simp only [GetMatchingGlobalQuotaNamespaces]
    rw [hloop, hfil]
    rfl

def demoFailSelectors : List GlobalResourceQuotaSelector :=
  [⟨true, none⟩, ⟨false, none⟩]

theorem c10_selector_failure_skipped_witness :
    GetMatchingGlobalQuotaNamespaces demoFailSelectors = ([], none) :=
  (c10_selector_failure_skipped demoFailSelectors).2.2 (by decide)

/-! ### The arithmetic engine: C4 and C5 -/

theorem alookup_mem {α : Type} {l : List (String × α)} {k : String} {v : α}
    (h : alookup l k = some v) : (k, v) ∈ l := by
  induction l with
  | nil => simp [alookup] at h
  | cons p rest ih =>
    obtain ⟨k', w⟩ := p
    by_cases hk : k' = k
    · subst hk
      simp only [alookup, if_true] at h
      cases h
      exact List.mem_cons_self _ _
    · simp only [alookup, hk, if_false] at h
      exact List.mem_cons_of_mem _ (ih h)

/-- C4. `GetQuotaSpace`: with a status row, each resource in the
row's hard list maps to `max(0, hard − used)` (missing `used` treated
as 0); without a status row but with a spec item, the declared spec
hard list is returned verbatim; and (given the API-validated
non-negativity of declared hard values) the returned list never
contains a negative quantity. -/
theorem c4_quota_space (g : GlobalResourceQuota) (index : String)
    (hnn : ∀ p ∈ g.items, ∀ q ∈ p.2, 0 ≤ q.2) :
    (∀ row, alookup g.statusQuota index = some row →
      ∃ l, g.GetQuotaSpace index = some l ∧
        ∀ r, RList.lookup l r = (RList.lookup row.hard r).map
          (fun hard => max 0 (hard - ((RList.lookup row.used r).getD 0)))) ∧
    (alookup g.statusQuota index = none →
      ∀ quotaSpec, alookup g.items index = some quotaSpec →
        g.GetQuotaSpace index = some quotaSpec) ∧
    (∀ l, g.GetQuotaSpace index = some l → ∀ p ∈ l, 0 ≤ p.2) := by
  refine ⟨?_, ?_, ?_⟩
  · intro row hrow
    refine ⟨RList.mapv
      (fun r hard => max 0 (hard - ((RList.lookup row.used r).getD 0))) row.hard,
      ?_, ?_⟩
    · simp [GlobalResourceQuota.GetQuotaSpace, hrow]
    · intro r
      exact RList.lookup_mapv _ row.hard r
  · intro hnone quotaSpec hspec
    simp [GlobalResourceQuota.GetQuotaSpace, hnone, hspec]
  · intro l hl p hp
    unfold GlobalResourceQuota.GetQuotaSpace at hl
    match hrow : alookup g.statusQuota index with
    | some row =>
      rw [hrow] at hl
      cases hl
      obtain ⟨q, _, hpq⟩ := RList.mem_mapv hp
      rw [hpq]
      exact le_max_left 0 _
    | none =>
      rw [hrow] at hl
      match hspec : alookup g.items index with
      | some quotaSpec =>
        rw [hspec] at hl
        cases hl
        exact hnn _ (alookup_mem hspec) p hp
      | none => rw [hspec] at hl; cases hl

def demoRow : ResourceQuotaStatus :=
  ⟨[("cpu", 10), ("memory", 32)], [("cpu", 4), ("memory", 10)]⟩

def demoG4 : GlobalResourceQuota :=
  { name := "grq-a"
    active := true
    selectors := []
    items := [("network", [("services", 8)])]
    statusActive := true
    statusNamespaces := []
    statusSize := 0
    statusQuota := [("compute", demoRow)] }

theorem c4_quota_space_witness :
    ∃ l, demoG4.GetQuotaSpace "compute" = some l ∧
      ∀ r, RList.lookup l r = (RList.lookup demoRow.hard r).map
        (fun hard => max 0 (hard - ((RList.lookup demoRow.used r).getD 0))) :=
  (c4_quota_space demoG4 "compute" (by decide)).1 demoRow (by decide)

/-- C5. `GetAggregatedQuotaSpace` relates to `GetQuotaSpace`: with a
status row, the aggregated value for `r` adds the caller's local used
value when present and is unchanged otherwise; without a status row both
return the declared spec hard list verbatim. -/
theorem c5_aggregated_quota_space (g : GlobalResourceQuota) (index : String)
    (u : ResourceList) (r : ResourceName) :
    (∀ row, alookup g.statusQuota index = some row →
      ∀ lA lS, g.GetAggregatedQuotaSpace index u = some lA →
        g.GetQuotaSpace index = some lS →
        (RList.lookup u r = none → RList.lookup lA r = RList.lookup lS r) ∧
        (∀ uv, RList.lookup u r = some uv →
          RList.lookup lA r = (RList.lookup lS r).map (fun s => s + uv))) ∧
    (alookup g.statusQuota index = none →
      g.GetAggregatedQuotaSpace index u = g.GetQuotaSpace index) := by
  constructor
  · intro row hrow lA lS hA hS
    simp only [GlobalResourceQuota.GetAggregatedQuotaSpace, hrow] at hA
    simp only [GlobalResourceQuota.GetQuotaSpace, hrow] at hS
    cases hA
    cases hS
    constructor
    · intro hu
      rw [RList.lookup_mapv, RList.lookup_mapv, hu]
      cases RList.lookup row.hard r <;> simp
    · intro uv hu
      rw [RList.lookup_mapv, RList.lookup_mapv, hu]
      cases RList.lookup row.hard r <;> simp
  · intro hnone
    simp [GlobalResourceQuota.GetAggregatedQuotaSpace,
      GlobalResourceQuota.GetQuotaSpace, hnone]

theorem c5_aggregated_quota_space_witness :
    ∃ lA lS, demoG4.GetAggregatedQuotaSpace "compute" [("cpu", 2)] = some lA ∧
      demoG4.GetQuotaSpace "compute" = some lS ∧
      RList.lookup lA "cpu" = (RList.lookup lS "cpu").map (fun s => s + 2) := by
  refine ⟨_, _, rfl, rfl, ?_⟩
  exact (((c5_aggregated_quota_space demoG4 "compute" [("cpu", 2)] "cpu").1
    demoRow (by decide) _ _ rfl rfl).2 2 (by decide))

/-! ### Admission webhooks -/

/-- A (managed) `corev1.ResourceQuota` object, with the fields the
subsystem reads and writes. -/
structure ResourceQuotaObj where
  name : String
  nsName : String
  labels : List (String × String)
  specHard : ResourceList
  statusHard : ResourceList
  statusUsed : ResourceList
  ownerRef : Option String
  deriving Repr, DecidableEq

/-- The observable outcome of one admission handler call:
`noResponse` models the handler returning `nil` (admit unchanged,
neither patch nor error), `denied`/`errored` the corresponding
`admission` responses, and `patched` a `PatchResponseFromRaw` carrying
the mutated object. -/
inductive AdmissionResponse where
  | noResponse
  | denied (msg : String)
  | errored (msg : String)
  | patched (obj : ResourceQuotaObj)
  deriving Repr, DecidableEq

/-- Embeds `c.Get` of a GlobalResourceQuota by name over the cluster's list. -/
def findGRQ (grqs : List GlobalResourceQuota) (name : String) :
    Option GlobalResourceQuota :=
  grqs.find? (fun g => g.name == name)

/-- Persisting a status update of one GlobalResourceQuota
(`c.Status().Update`): replace the object with the same name. -/
def updateGRQ (grqs : List GlobalResourceQuota) (g' : GlobalResourceQuota) :
    List GlobalResourceQuota :=
  grqs.map (fun g => if g.name == g'.name then g' else g)

/-- Embeds `statusHandler.calculate` (pkg/webhook/globalquota/calculation.go,
handling UPDATE of a managed per-namespace quota).  Its first
executable statement after the initial log call is
`return utils.ErroredResponse(fmt.Errorf("meowie"))` (line 54); every
line below — decoding, the item/parent lookups, the admit-unchanged
paths for an absent or inactive parent, and the whole accounting
algorithm — is unreachable.  The embedding therefore takes the inputs
the unreachable code would consume and returns that errored response. -/
def calculate (_grqs : List GlobalResourceQuota)
    (_oldQuota _quota : ResourceQuotaObj) : AdmissionResponse :=
  .errored "meowie"

def demoOldManaged : ResourceQuotaObj :=
  { name := "capsule-grq-a-compute"
    nsName := "ns1"
    labels := [(managedByLabel, "grq-a"), (itemLabel, "compute")]
    specHard := [("cpu", 5)]
    statusHard := [("cpu", 5)]
    statusUsed := [("cpu", 1)]
    ownerRef := some "grq-a" }

def demoNewManaged : ResourceQuotaObj :=
  { demoOldManaged with statusUsed := [("cpu", 2)] }

/-- C1 (code bug). On an UPDATE of a managed quota whose parent
GlobalResourceQuota does not exist (here: empty cluster), the
status-mutator does not admit the request unchanged: it returns an
errored admission response `"meowie"` — the admit-unchanged paths of
`calculate` are dead code behind an unconditional early error return. -/
theorem c1_calculate_always_errors :
    calculate [] demoOldManaged demoNewManaged = .errored "meowie" ∧
    calculate [] demoOldManaged demoNewManaged ≠ .noResponse ∧
    findGRQ [] "grq-a" = none ∧
    ∀ (grqs : List GlobalResourceQuota) (o q : ResourceQuotaObj),
      calculate grqs o q = .errored "meowie" :=
  ⟨rfl, by decide, rfl, fun _ _ _ => rfl⟩

/-- Embeds `validationhandler.OnUpdate` (resourcequota validation webhook):
returns `nil` for every UPDATE request. -/
def validationOnUpdate (_quota : ResourceQuotaObj) : AdmissionResponse :=
  .noResponse

/-- Embeds `validationhandler.handle`, reached from `OnDelete`: its first
statement unconditionally returns
`Denied("User:<userinfo> Managed ResourceQuota can not be modified")`;
the label inspection below the return is unreachable (and would deny
when a managed label is *absent*). -/
def validationHandle (userInfo : String) (_quota : ResourceQuotaObj) :
    AdmissionResponse :=
  .denied ("User:" ++ userInfo ++ " Managed ResourceQuota can not be modified")

/-- Embeds `validationhandler.OnDelete` delegates to `handle`. -/
def validationOnDelete (userInfo : String) (quota : ResourceQuotaObj) :
    AdmissionResponse :=
  validationHandle userInfo quota

def demoUnmanagedQuota : ResourceQuotaObj :=
  { name := "user-quota"
    nsName := "ns1"
    labels := []
    specHard := [("pods", 3)]
    statusHard := [("pods", 3)]
    statusUsed := []
    ownerRef := none }

/-- C3 counterexample. A DELETE of a ResourceQuota carrying no
labels at all — in particular not the managed-by label — is denied,
refuting "the handler denies if and only if the object carries the
managed-by label"; and an UPDATE of a quota that does carry the
managed-by label is admitted, refuting the "managed UPDATE is denied"
direction. -/
theorem c3_validation_counterexample :
    demoUnmanagedQuota.labels = [] ∧
    validationOnDelete "system:admin" demoUnmanagedQuota =
      .denied "User:system:admin Managed ResourceQuota can not be modified" ∧
    hasLabel demoOldManaged.labels managedByLabel = true ∧
    validationOnUpdate demoOldManaged = .noResponse :=
  ⟨rfl, rfl, by decide, rfl⟩

/-- C3 (amended). The validation handler denies every user DELETE of
a ResourceQuota object unconditionally — regardless of its labels — with
the managed-quota denial message, and admits every UPDATE unchanged. -/
theorem c3_validation_denies_all_deletes (userInfo : String)
    (quota : ResourceQuotaObj) :
    validationOnDelete userInfo quota =
      .denied ("User:" ++ userInfo ++ " Managed ResourceQuota can not be modified") ∧
    validationOnUpdate quota = .noResponse :=
  ⟨rfl, rfl⟩

/-! ### The spec mutator (globalquota webhook, `statusHandler.validate`) -/

theorem RList.lookup_mem {l : ResourceList} {r : ResourceName} {v : Quantity}
    (h : RList.lookup l r = some v) : (r, v) ∈ l := by
  induction l with
  | nil => simp [RList.lookup] at h
  | cons p rest ih =>
    obtain ⟨k, w⟩ := p
    by_cases hk : k = r
    · subst hk
      simp only [RList.lookup, if_true] at h
      cases h
      exact List.mem_cons_self _ _
    · simp only [RList.lookup, hk, if_false] at h
      exact List.mem_cons_of_mem _ (ih h)

/-- The per-resource loop of the spec mutator (lines 135–175 of its
file): for each resource of the remaining `space`, read the old limit
from the old object's `status.hard` (default 0) and the newly requested
limit from the updated object's `status.hard` (default: the old limit),
clamp the requested increase to the available space, write the final
limit into both `spec.hard` and `status.hard`, and add the granted
increase to the tenant's used list.  The state is
`(quota.Spec.Hard, quota.Status.Hard, tenantUsed)`. -/
def specMutLoop (oldHard : ResourceList) :
    List (ResourceName × Quantity) →
    ResourceList × ResourceList × ResourceList →
    ResourceList × ResourceList × ResourceList
  | [], st => st
  | (r, availableSpace) :: rest, (sh, th, tu) =>
    let oldLimit := (RList.lookup oldHard r).getD 0
    let newLimit := (RList.lookup th r).getD oldLimit
    let requested := newLimit - oldLimit
    let granted := if availableSpace < requested then availableSpace else requested
    let finalLimit := oldLimit + granted
    specMutLoop oldHard rest
      (RList.setv sh r finalLimit, RList.setv th r finalLimit,
       RList.setv tu r ((RList.lookup tu r).getD 0 + granted))

/-- Embeds `statusHandler.validate` — the spec mutator firing on UPDATE of a
managed quota's hard limits.  Checks the managed-by and item labels,
fetches the parent (an errored response if the `Get` fails, e.g. the
parent does not exist), no-ops when the parent is inactive, and inside
the retry closure runs the per-resource loop over `GetQuotaSpace` and
persists the updated used list into the parent's status before emitting
the patched object. -/
def specValidate (grqs : List GlobalResourceQuota)
    (oldQuota quota : ResourceQuotaObj) :
    AdmissionResponse × List GlobalResourceQuota :=
  match alookup quota.labels managedByLabel with
  | none => (.noResponse, grqs)
  | some globalQuotaName =>
    match alookup quota.labels itemLabel with
    | none => (.noResponse, grqs)
    | some item =>
      if item = "" then (.noResponse, grqs)
      else
        match findGRQ grqs globalQuotaName with
        | none => (.errored "globalresourcequota not found", grqs)
        | some globalQuota =>
          if !globalQuota.active then (.noResponse, grqs)
          else
            match alookup globalQuota.statusQuota item with
            | none => (.patched quota, grqs)
            | some tenantQuota =>
              let space := (globalQuota.GetQuotaSpace item).getD []
              let st := specMutLoop oldQuota.statusHard space
                (quota.specHard, quota.statusHard, tenantQuota.used)
              let quota' := { quota with specHard := st.1, statusHard := st.2.1 }
              let tenantQuota' := ⟨tenantQuota.hard, st.2.2⟩
              let globalQuota' := { globalQuota with
                statusQuota := aset globalQuota.statusQuota item tenantQuota' }
              (.patched quota', updateGRQ grqs globalQuota')

theorem ite_lt_eq_min (a q : Int) : (if a < q then a else q) = min q a := by
  rcases lt_or_le a q with h | h
  · simp [h, min_eq_right h.le]
  · simp [not_lt.mpr h, min_eq_left h]

theorem specMutLoop_lookup_preserved (oldHard : ResourceList)
    (space : List (ResourceName × Quantity)) (r : ResourceName)
    (hr : r ∉ space.map Prod.fst) :
    ∀ st : ResourceList × ResourceList × ResourceList,
      RList.lookup (specMutLoop oldHard space st).1 r = RList.lookup st.1 r ∧
      RList.lookup (specMutLoop oldHard space st).2.1 r = RList.lookup st.2.1 r ∧
      RList.lookup (specMutLoop oldHard space st).2.2 r = RList.lookup st.2.2 r := by
  induction space with
  | nil => intro st; exact ⟨rfl, rfl, rfl⟩
  | cons p rest ih =>
    intro st
    obtain ⟨k, availableSpace⟩ := p
    obtain ⟨sh, th, tu⟩ := st
    simp only [List.map_cons, List.mem_cons] at hr
    push_neg at hr
    have hk : k ≠ r := fun h => hr.1 h.symm
    simp only [specMutLoop]
    refine ⟨?_, ?_, ?_⟩
    · rw [(ih hr.2 _).1, RList.lookup_setv_ne _ _ _ _ hk]
    · rw [(ih hr.2 _).2.1, RList.lookup_setv_ne _ _ _ _ hk]
    · rw [(ih hr.2 _).2.2, RList.lookup_setv_ne _ _ _ _ hk]

theorem specMutLoop_lookup (oldHard : ResourceList)
    (space : List (ResourceName × Quantity))
    (hnd : (space.map Prod.fst).Nodup) (r : ResourceName)
    (availableSpace : Quantity) (hmem : (r, availableSpace) ∈ space) :
    ∀ st : ResourceList × ResourceList × ResourceList,
      RList.lookup (specMutLoop oldHard space st).1 r =
        some ((RList.lookup oldHard r).getD 0 +
          min (((RList.lookup st.2.1 r).getD ((RList.lookup oldHard r).getD 0)) -
            (RList.lookup oldHard r).getD 0) availableSpace) ∧
      RList.lookup (specMutLoop oldHard space st).2.1 r =
        some ((RList.lookup oldHard r).getD 0 +
          min (((RList.lookup st.2.1 r).getD ((RList.lookup oldHard r).getD 0)) -
            (RList.lookup oldHard r).getD 0) availableSpace) ∧
      RList.lookup (specMutLoop oldHard space st).2.2 r =
        some ((RList.lookup st.2.2 r).getD 0 +
          min (((RList.lookup st.2.1 r).getD ((RList.lookup oldHard r).getD 0)) -
            (RList.lookup oldHard r).getD 0) availableSpace) := by
  induction space with
  | nil => intro st; simp at hmem
  | cons p rest ih =>
    intro st
    obtain ⟨k, a⟩ := p
    obtain ⟨sh, th, tu⟩ := st
    simp only [List.map_cons, List.nodup_cons] at hnd
    rcases List.mem_cons.mp hmem with hhead | htail
    · obtain ⟨hkr, har⟩ : k = r ∧ a = availableSpace := by
        cases hhead; exact ⟨rfl, rfl⟩
      subst hkr
      subst har
      have hout : k ∉ rest.map Prod.fst := hnd.1
      simp only [specMutLoop]
      refine ⟨?_, ?_, ?_⟩
      · rw [(specMutLoop_lookup_preserved oldHard rest k hout _).1,
          RList.lookup_setv_self, ite_lt_eq_min, min_comm]
      · rw [(specMutLoop_lookup_preserved oldHard rest k hout _).2.1,
          RList.lookup_setv_self, ite_lt_eq_min, min_comm]
      · rw [(specMutLoop_lookup_preserved oldHard rest k hout _).2.2,
          RList.lookup_setv_self, ite_lt_eq_min, min_comm]
    · have hkr : k ≠ r := by
        intro h
        subst h
        exact hnd.1 (List.mem_map.mpr ⟨(k, availableSpace), htail, rfl⟩)
      simp only [specMutLoop]
      refine ⟨?_, ?_, ?_⟩
      · rw [(ih hnd.2 htail _).1, RList.lookup_setv_ne _ _ _ _ hkr]
      · rw [(ih hnd.2 htail _).2.1, RList.lookup_setv_ne _ _ _ _ hkr]
      · rw [(ih hnd.2 htail _).2.2, RList.lookup_setv_ne _ _ _ _ hkr,
          RList.lookup_setv_ne _ _ _ _ hkr]

/-- C6. For every UPDATE of a managed quota's hard limits handled by
the spec mutator and every resource `r` with remaining global space
`availableSpace`: the granted increase is
`min(new.hard[r] − old.hard[r], space[r])` (the requested limit
defaulting to the old one when absent), the written-back hard value —
in both `spec.hard` and `status.hard` — is the old hard value plus the
granted increase, and the same granted increase is added to the parent
GlobalResourceQuota's `status.quota[item].used[r]` persisted in the
same admission. -/
theorem c6_spec_mutator (grqs : List GlobalResourceQuota)
    (oldQuota quota : ResourceQuotaObj) (gname item : String)
    (g : GlobalResourceQuota) (row : ResourceQuotaStatus)
    (r : ResourceName) (availableSpace : Quantity)
    (hg : alookup quota.labels managedByLabel = some gname)
    (hi : alookup quota.labels itemLabel = some item)
    (hne : item ≠ "")
    (hfind : findGRQ grqs gname = some g)
    (hact : g.active = true)
    (hrow : alookup g.statusQuota item = some row)
    (hnd : (RList.keys row.hard).Nodup)
    (hsp : RList.lookup ((g.GetQuotaSpace item).getD []) r = some availableSpace) :
    ∃ quota' tenantUsed',
      specValidate grqs oldQuota quota =
        (.patched quota',
         updateGRQ grqs { g with statusQuota :=
            (aset g.statusQuota item ⟨row.hard, tenantUsed'⟩) }) ∧
      (let oldLimit := (RList.lookup oldQuota.statusHard r).getD 0
       let newLimit := (RList.lookup quota.statusHard r).getD oldLimit
       let granted := min (newLimit - oldLimit) availableSpace
       RList.lookup quota'.specHard r = some (oldLimit + granted) ∧
       RList.lookup quota'.statusHard r = some (oldLimit + granted) ∧
       RList.lookup tenantUsed' r =
         some ((RList.lookup row.used r).getD 0 + granted)) := by
  have hspace : (g.GetQuotaSpace item).getD [] =
      RList.mapv
        (fun r hard => max 0 (hard - ((RList.lookup row.used r).getD 0)))
        row.hard := by
    simp [GlobalResourceQuota.GetQuotaSpace, hrow]
  have hndsp : (((g.GetQuotaSpace item).getD []).map Prod.fst).Nodup := by
    rw [hspace]
    show (RList.keys (RList.mapv _ row.hard)).Nodup
    rw [RList.keys_mapv]
    exact hnd
  have hmem : (r, availableSpace) ∈ (g.GetQuotaSpace item).getD [] :=
    RList.lookup_mem hsp
  have hloop := specMutLoop_lookup oldQuota.statusHard
    ((g.GetQuotaSpace item).getD []) hndsp r availableSpace hmem
    (quota.specHard, quota.statusHard, row.used)
  refine ⟨{ quota with
      specHard := (specMutLoop oldQuota.statusHard ((g.GetQuotaSpace item).getD [])
        (quota.specHard, quota.statusHard, row.used)).1,
      statusHard := (specMutLoop oldQuota.statusHard ((g.GetQuotaSpace item).getD [])
        (quota.specHard, quota.statusHard, row.used)).2.1 },
    (specMutLoop oldQuota.statusHard ((g.GetQuotaSpace item).getD [])
      (quota.specHard, quota.statusHard, row.used)).2.2, ?_, ?_⟩
  · simp only [specValidate, hg, hi, hne, if_false, hfind, hact,
      Bool.not_true, hrow]
    rfl
  · exact ⟨hloop.1, hloop.2.1, hloop.2.2⟩

def demoG6 : GlobalResourceQuota :=
  { name := "grq-6"
    active := true
    selectors := []
    items := [("compute", [("cpu", 10)])]
    statusActive := true
    statusNamespaces := ["ns1"]
    statusSize := 1
    statusQuota := [("compute", ⟨[("cpu", 10)], [("cpu", 4)]⟩)] }

def demoOld6 : ResourceQuotaObj :=
  { name := "capsule-grq-6-compute"
    nsName := "ns1"
    labels := [(managedByLabel, "grq-6"), (itemLabel, "compute")]
    specHard := [("cpu", 5)]
    statusHard := [("cpu", 5)]
    statusUsed := [("cpu", 2)]
    ownerRef := some "grq-6" }

def demoNew6 : ResourceQuotaObj :=
  { demoOld6 with statusHard := [("cpu", 8)] }

theorem c6_spec_mutator_witness :
    ∃ quota' tenantUsed',
      specValidate [demoG6] demoOld6 demoNew6 =
        (.patched quota',
         updateGRQ [demoG6] { demoG6 with statusQuota :=
            (aset demoG6.statusQuota "compute" ⟨[("cpu", 10)], tenantUsed'⟩) }) ∧
      (let oldLimit := (RList.lookup demoOld6.statusHard "cpu").getD 0
       let newLimit := (RList.lookup demoNew6.statusHard "cpu").getD oldLimit
       let granted := min (newLimit - oldLimit) 6
       RList.lookup quota'.specHard "cpu" = some (oldLimit + granted) ∧
       RList.lookup quota'.statusHard "cpu" = some (oldLimit + granted) ∧
       RList.lookup tenantUsed' "cpu" =
         some ((RList.lookup [(("cpu" : String), (4 : Int))] "cpu").getD 0 + granted)) :=
  c6_spec_mutator [demoG6] demoOld6 demoNew6 "grq-6" "compute" demoG6
    ⟨[("cpu", 10)], [("cpu", 4)]⟩ "cpu" 6
    (by decide) (by decide) (by decide) (by decide) (by decide) (by decide)
    (by decide) (by decide)

/-! ### C8: the spec mutator can persist a negative `used` -/

def demoG8 : GlobalResourceQuota :=
  { name := "grq-8"
    active := true
    selectors := []
    items := [("compute", [("cpu", 10)])]
    statusActive := true
    statusNamespaces := ["ns1"]
    statusSize := 1
    statusQuota := [("compute", ⟨[("cpu", 10)], [("cpu", 3)]⟩)] }

def demoOld8 : ResourceQuotaObj :=
  { name := "capsule-grq-8-compute"
    nsName := "ns1"
    labels := [(managedByLabel, "grq-8"), (itemLabel, "compute")]
    specHard := [("cpu", 5)]
    statusHard := [("cpu", 5)]
    statusUsed := [("cpu", 1)]
    ownerRef := some "grq-8" }

def demoNew8 : ResourceQuotaObj :=
  { demoOld8 with statusHard := [("cpu", 0)] }

def demoG8After : GlobalResourceQuota :=
  { demoG8 with statusQuota := [("compute", ⟨[("cpu", 10)], [("cpu", -2)]⟩)] }

/-- C8 (code bug). Lowering a managed quota's requested hard limit
from 5 to 0 while the parent's used is 3 makes the spec mutator add the
unclamped negative granted increase (−5) to the parent's used, and the
persisted `status.quota["compute"].used["cpu"]` becomes −2 < 0 — the
deletion and status paths clamp at 0, but this path does not. -/
theorem c8_spec_mutator_negative_used :
    (specValidate [demoG8] demoOld8 demoNew8).2 = [demoG8After] ∧
    alookup demoG8After.statusQuota "compute" =
      some ⟨[("cpu", 10)], [("cpu", -2)]⟩ ∧
    RList.lookup [(("cpu" : String), (-2 : Int))] "cpu" = some (-2) ∧
    ((-2 : Int) < 0) := by
  refine ⟨by decide, by decide, by decide, by decide⟩

/-! ### The deletion handler (`deletionHandler.OnDelete`) -/

/-- The per-resource loop of the deletion handler (lines 99–124 of its
file): for each resource of the deleted object's `status.used`, when the
resource is present in the global used list subtract the freed amount
and clamp at zero; resources absent from the global used list are
skipped (`continue`). -/
def deletionLoop : List (ResourceName × Quantity) → ResourceList → ResourceList
  | [], tenantUsed => tenantUsed
  | (r, used) :: rest, tenantUsed =>
    match RList.lookup tenantUsed r with
    | none => deletionLoop rest tenantUsed
    | some currentUsed =>
      deletionLoop rest (RList.setv tenantUsed r (max 0 (currentUsed - used)))

/-- Embeds `deletionHandler.OnDelete`: decodes the deleted object, no-ops
without an item label, admits silently when the parent
GlobalResourceQuota is not found (`IsNotFound`), and otherwise runs the
subtraction loop over the deleted object's `status.used` and persists
the updated used list into the parent's status, admitting the request.
When the managed-by label is absent, `GetGlobalQuota` returns an
empty-named object with no error and the retry closure's `Get` by empty
name fails, surfacing an errored response. -/
def deletionOnDelete (grqs : List GlobalResourceQuota)
    (quota : ResourceQuotaObj) : AdmissionResponse × List GlobalResourceQuota :=
  match alookup quota.labels itemLabel with
  | none => (.noResponse, grqs)
  | some item =>
    if item = "" then (.noResponse, grqs)
    else
      match alookup quota.labels managedByLabel with
      | none => (.errored "resource name may not be empty", grqs)
      | some globalQuotaName =>
        match findGRQ grqs globalQuotaName with
        | none => (.noResponse, grqs)
        | some globalQuota =>
          match alookup globalQuota.statusQuota item with
          | none => (.noResponse, grqs)
          | some tenantQuota =>
            let tenantUsed := deletionLoop quota.statusUsed tenantQuota.used
            let globalQuota' := { globalQuota with
              statusQuota := (aset globalQuota.statusQuota item
                ⟨tenantQuota.hard, tenantUsed⟩) }
            (.noResponse, updateGRQ grqs globalQuota')

theorem deletionLoop_lookup_preserved
    (qs : List (ResourceName × Quantity)) (r : ResourceName)
    (hr : r ∉ qs.map Prod.fst) :
    ∀ tenantUsed : ResourceList,
      RList.lookup (deletionLoop qs tenantUsed) r = RList.lookup tenantUsed r := by
  induction qs with
  | nil => intro tenantUsed; rfl
  | cons p rest ih =>
    intro tenantUsed
    obtain ⟨k, used⟩ := p
    simp only [List.map_cons, List.mem_cons] at hr
    push_neg at hr
    have hk : k ≠ r := fun h => hr.1 h.symm
    match hcur : RList.lookup tenantUsed k with
    | none => simp only [deletionLoop, hcur]; exact ih hr.2 tenantUsed
    | some currentUsed =>
      simp only [deletionLoop, hcur]
      rw [ih hr.2 _, RList.lookup_setv_ne _ _ _ _ hk]

theorem deletionLoop_lookup (qs : List (ResourceName × Quantity))
    (hnd : (qs.map Prod.fst).Nodup) (r : ResourceName) (u : Quantity)
    (hmem : (r, u) ∈ qs) :
    ∀ tenantUsed : ResourceList,
      (∀ currentUsed, RList.lookup tenantUsed r = some currentUsed →
        RList.lookup (deletionLoop qs tenantUsed) r =
          some (max 0 (currentUsed - u))) ∧
      (RList.lookup tenantUsed r = none →
        RList.lookup (deletionLoop qs tenantUsed) r = none) := by
  induction qs with
  | nil => simp at hmem
  | cons p rest ih =>
    intro tenantUsed
    obtain ⟨k, v⟩ := p
    simp only [List.map_cons, List.nodup_cons] at hnd
    rcases List.mem_cons.mp hmem with hhead | htail
    · obtain ⟨hkr, hvu⟩ : k = r ∧ v = u := by cases hhead; exact ⟨rfl, rfl⟩
      subst hkr
      subst hvu
      constructor
      · intro currentUsed hcur
        simp only [deletionLoop, hcur]
        rw [deletionLoop_lookup_preserved rest k hnd.1 _,
          RList.lookup_setv_self]
      · intro hcur
        simp only [deletionLoop, hcur]
        rw [deletionLoop_lookup_preserved rest k hnd.1 _]
        exact hcur
    · have hkr : k ≠ r := by
        intro h
        subst h
        exact hnd.1 (List.mem_map.mpr ⟨(k, u), htail, rfl⟩)
      constructor
      · intro currentUsed hcur
        match hck : RList.lookup tenantUsed k with
        | none =>
          simp only [deletionLoop, hck]
          exact (ih hnd.2 htail tenantUsed).1 currentUsed hcur
        | some ck =>
          simp only [deletionLoop, hck]
          refine (ih hnd.2 htail _).1 currentUsed ?_
          rw [RList.lookup_setv_ne _ _ _ _ hkr]
          exact hcur
      · intro hcur
        match hck : RList.lookup tenantUsed k with
        | none =>
          simp only [deletionLoop, hck]
          exact (ih hnd.2 htail tenantUsed).2 hcur
        | some ck =>
          simp only [deletionLoop, hck]
          refine (ih hnd.2 htail _).2 ?_
          rw [RList.lookup_setv_ne _ _ _ _ hkr]
          exact hcur

/-- C7. On DELETE of a managed per-namespace ResourceQuota whose
parent GlobalResourceQuota exists: for each resource of the deleted
object's `status.used` that also appears in the parent's used list, the
parent's `status.quota[item].used[r]` is decreased by the freed amount
and clamped below at 0 (resources absent from the parent's used list are
left untouched), and the request is admitted; when the parent no longer
exists the request is admitted silently with no state change. -/
theorem c7_deletion_handler :
    (∀ (grqs : List GlobalResourceQuota) (quota : ResourceQuotaObj)
        (item gname : String) (g : GlobalResourceQuota)
        (row : ResourceQuotaStatus),
      alookup quota.labels itemLabel = some item → item ≠ "" →
      alookup quota.labels managedByLabel = some gname →
      findGRQ grqs gname = some g →
      alookup g.statusQuota item = some row →
      (quota.statusUsed.map Prod.fst).Nodup →
      ∃ tenantUsed',
        deletionOnDelete grqs quota =
          (.noResponse, updateGRQ grqs { g with statusQuota :=
            (aset g.statusQuota item ⟨row.hard, tenantUsed'⟩) }) ∧
        ∀ r u, (r, u) ∈ quota.statusUsed →
          (∀ currentUsed, RList.lookup row.used r = some currentUsed →
            RList.lookup tenantUsed' r = some (max 0 (currentUsed - u))) ∧
          (RList.lookup row.used r = none →
            RList.lookup tenantUsed' r = none)) ∧
    (∀ (grqs : List GlobalResourceQuota) (quota : ResourceQuotaObj)
        (item gname : String),
      alookup quota.labels itemLabel = some item → item ≠ "" →
      alookup quota.labels managedByLabel = some gname →
      findGRQ grqs gname = none →
      deletionOnDelete grqs quota = (.noResponse, grqs)) := by
  constructor
  · intro grqs quota item gname g row hi hne hg hfind hrow hnd
    refine ⟨deletionLoop quota.statusUsed row.used, ?_, ?_⟩
    · simp only [deletionOnDelete, hi, hne, if_false, hg, hfind, hrow]
    · intro r u hmem
      exact ⟨fun currentUsed hcur =>
          (deletionLoop_lookup quota.statusUsed hnd r u hmem row.used).1
            currentUsed hcur,
        fun hcur =>
          (deletionLoop_lookup quota.statusUsed hnd r u hmem row.used).2 hcur⟩
  · intro grqs quota item gname hi hne hg hfind
    simp only [deletionOnDelete, hi, hne, if_false, hg, hfind]

def demoG7 : GlobalResourceQuota :=
  { name := "grq-7"
    active := true
    selectors := []
    items := [("compute", [("cpu", 10)])]
    statusActive := true
    statusNamespaces := ["ns1"]
    statusSize := 1
    statusQuota := [("compute", ⟨[("cpu", 10)], [("cpu", 4)]⟩)] }

def demoDeleted7 : ResourceQuotaObj :=
  { name := "capsule-grq-7-compute"
    nsName := "ns1"
    labels := [(managedByLabel, "grq-7"), (itemLabel, "compute")]
    specHard := [("cpu", 6)]
    statusHard := [("cpu", 6)]
    statusUsed := [("cpu", 6)]
    ownerRef := some "grq-7" }

theorem c7_deletion_handler_witness :
    (∃ tenantUsed',
      deletionOnDelete [demoG7] demoDeleted7 =
        (.noResponse, updateGRQ [demoG7] { demoG7 with statusQuota :=
          (aset demoG7.statusQuota "compute" ⟨[("cpu", 10)], tenantUsed'⟩) }) ∧
      ∀ r u, (r, u) ∈ demoDeleted7.statusUsed →
        (∀ currentUsed,
          RList.lookup [(("cpu" : String), (4 : Int))] r = some currentUsed →
          RList.lookup tenantUsed' r = some (max 0 (currentUsed - u))) ∧
        (RList.lookup [(("cpu" : String), (4 : Int))] r = none →
          RList.lookup tenantUsed' r = none)) ∧
    deletionOnDelete [] demoDeleted7 = (.noResponse, []) :=
  ⟨c7_deletion_handler.1 [demoG7] demoDeleted7 "compute" "grq-7" demoG7
      ⟨[("cpu", 10)], [("cpu", 4)]⟩
      (by decide) (by decide) (by decide) (by decide) (by decide) (by decide),
    c7_deletion_handler.2 [] demoDeleted7 "compute" "grq-7"
      (by decide) (by decide) (by decide) rfl⟩

/-! ### The reconciler (`Manager.Reconcile`, controllers/globalquota) -/

/-- The cluster state the reconciler reads and writes. -/
structure Cluster where
  grqs : List GlobalResourceQuota
  quotas : List ResourceQuotaObj
  namespaces : List NamespaceObj
  deriving Repr, DecidableEq

/-- Persist a GlobalResourceQuota (status) update into the cluster. -/
def Cluster.updateGRQc (c : Cluster) (g' : GlobalResourceQuota) : Cluster :=
  { c with grqs := updateGRQ c.grqs g' }

/-- Embeds `c.Get` of a ResourceQuota by namespace and name. -/
def findQuota (c : Cluster) (ns nm : String) : Option ResourceQuotaObj :=
  c.quotas.find? (fun q => q.nsName == ns && q.name == nm)

/-- Embeds `CreateOrUpdate`: replace the object when present, create it
otherwise. -/
def upsertQuota (c : Cluster) (q' : ResourceQuotaObj) : Cluster :=
  if (findQuota c q'.nsName q'.name).isSome then
    { c with quotas := (c.quotas.map
        (fun q => if q.nsName == q'.nsName && q.name == q'.name then q' else q)) }
  else { c with quotas := c.quotas ++ [q'] }

/-- Embeds `c.Delete` of a ResourceQuota by namespace and name (a no-op when
absent, matching the `IsNotFound → continue` treatment). -/
def deleteQuotaByName (c : Cluster) (ns nm : String) : Cluster :=
  { c with quotas := c.quotas.filter (fun q => !(q.nsName == ns && q.name == nm)) }

/-- Embeds `ItemObjectName` (controllers/globalquota/utils.go):
`"capsule-<grq.name>-<itemName>"`. -/
def ItemObjectName (itemName : String) (quota : GlobalResourceQuota) : String :=
  "capsule-" ++ quota.name ++ "-" ++ itemName

/-- String insertion used by the ascending sort. -/
def insertSorted (s : String) : List String → List String
  | [] => [s]
  | x :: rest => if s ≤ x then s :: x :: rest else x :: insertSorted s rest

/-- Embeds `sort.Strings`: ascending sort of namespace names. -/
def sortStrings : List String → List String
  | [] => []
  | x :: rest => insertSorted x (sortStrings rest)

/-- Embeds `GlobalResourceQuota.AssignNamespaces`
(api/v1beta2/globalresourcequota_func.go): keep the names of namespaces
in the `Active` phase, sorted ascending, and record the count. -/
def AssignNamespaces (g : GlobalResourceQuota)
    (namespaces : List NamespaceObj) : GlobalResourceQuota :=
  let l := sortStrings ((namespaces.filter (fun ns => ns.phaseActive)).map
    NamespaceObj.name)
  { g with statusNamespaces := l, statusSize := l.length }

/-- Lines 62–85 of `syncResourceQuotas`: ensure a status row exists for
every spec item — a missing row is initialised with the declared hard
list and empty used. -/
def initStatusQuota (g : GlobalResourceQuota) : GlobalResourceQuota :=
  { g with statusQuota := (g.items.foldl
      (fun sq p =>
        match alookup sq p.1 with
        | some _ => sq
        | none => aset sq p.1 ⟨p.2, []⟩)
      g.statusQuota) }

/-- Lines 104–147 of `syncResourceQuotas`: for every status-quota key no
longer in the spec items, delete every managed ResourceQuota labelled
with that item across the matching and previously-tracked namespaces,
then drop the status row (in memory). -/
def removeOrphanQuotas (c : Cluster) (g : GlobalResourceQuota)
    (matching : List String) : Cluster × GlobalResourceQuota :=
  (g.statusQuota.map Prod.fst).foldl
    (fun acc idx =>
      match alookup acc.2.items idx with
      | some _ => acc
      | none =>
        let nsSet := matching ++ acc.2.statusNamespaces
        let c' := { acc.1 with quotas := acc.1.quotas.filter (fun q =>
          !(decide (q.nsName ∈ nsSet) &&
            (alookup q.labels managedByLabel == some acc.2.name) &&
            (alookup q.labels itemLabel == some idx))) }
        (c', { acc.2 with
          statusQuota := acc.2.statusQuota.filter (fun p => p.1 != idx) }))
    (c, g)

/-- Embeds `gcResourceQuotas`: skip silently when the namespace object is gone,
otherwise delete the managed object of every spec item in it. -/
def gcResourceQuotas (c : Cluster) (g : GlobalResourceQuota) (ns : String) :
    Cluster :=
  if (c.namespaces.find? (fun n => n.name == ns)).isNone then c
  else g.items.foldl (fun c' p => deleteQuotaByName c' ns (ItemObjectName p.1 g)) c

/-- Embeds `syncResourceQuota` for one namespace: for each spec item,
create-or-update the managed object — setting the managed-by and item
labels, `spec.hard := GetAggregatedQuotaSpace(item, target.status.used)`
and the owner reference. -/
def syncResourceQuotaNS (g : GlobalResourceQuota) (c : Cluster) (ns : String) :
    Cluster :=
  g.items.foldl
    (fun c' p =>
      let nm := ItemObjectName p.1 g
      let target := (findQuota c' ns nm).getD ⟨nm, ns, [], [], [], [], none⟩
      let space := (g.GetAggregatedQuotaSpace p.1 target.statusUsed).getD []
      upsertQuota c' { target with
        labels := (aset (aset target.labels managedByLabel g.name) itemLabel p.1),
        specHard := space,
        ownerRef := some g.name })
    c

/-- Embeds `Manager.syncResourceQuotas`: status-row initialisation and
write-back, orphan-item removal, garbage collection of namespaces that
left the match set, then the fan-out materialisation over the matching
namespaces (sequentialised — the errgroup introduces no observable
ordering in the model). -/
def syncResourceQuotas (c : Cluster) (g : GlobalResourceQuota)
    (matching : List String) : Cluster :=
  let g1 := initStatusQuota g
  let c1 := c.updateGRQc g1
  let p := removeOrphanQuotas c1 g1 matching
  let c3 := p.2.statusNamespaces.foldl
    (fun c' ns => if ns ∈ matching then c' else gcResourceQuotas c' p.2 ns) p.1
  matching.foldl (fun c' ns => syncResourceQuotaNS p.2 c' ns) c3

/-- Embeds `Manager.Reconcile` (controllers/globalquota/manager.go): fetch the
GlobalResourceQuota (not found → nothing to do), persist
`status.active := spec.active` (`updateQuotaStatus`), and — lines 88–92 —
**return immediately when `spec.active` is false, with no cleanup**;
otherwise resolve the matching namespaces from the selectors (the loop
inlined in `Reconcile` is the same as `GetMatchingGlobalQuotaNamespaces`),
sync the ResourceQuotas and update the tracked-namespaces status. -/
def Reconcile (c : Cluster) (requestName : String) : Cluster :=
  match findGRQ c.grqs requestName with
  | none => c
  | some inst0 =>
    let inst1 := { inst0 with statusActive := inst0.active }
    let c1 := c.updateGRQc inst1
    if !inst1.active then c1
    else
      let namespaces := (GetMatchingGlobalQuotaNamespaces inst1.selectors).1
      let nsNames := namespaces.map NamespaceObj.name
      let c2 := syncResourceQuotas c1 inst1 nsNames
      match findGRQ c2.grqs inst1.name with
      | none => c2
      | some latest => c2.updateGRQc (AssignNamespaces latest namespaces)

/-- The managed ResourceQuota objects belonging to one
GlobalResourceQuota, identified by the managed-by label. -/
def managedQuotasOf (c : Cluster) (gname : String) : List ResourceQuotaObj :=
  c.quotas.filter (fun q => alookup q.labels managedByLabel == some gname)

def demoInactiveG : GlobalResourceQuota :=
  { name := "grq-i"
    active := false
    selectors := []
    items := [("pods", [("pods", 5)])]
    statusActive := true
    statusNamespaces := ["ns1"]
    statusSize := 1
    statusQuota := [("pods", ⟨[("pods", 5)], [("pods", 2)]⟩)] }

def demoManagedRQi : ResourceQuotaObj :=
  { name := "capsule-grq-i-pods"
    nsName := "ns1"
    labels := [(managedByLabel, "grq-i"), (itemLabel, "pods")]
    specHard := [("pods", 5)]
    statusHard := [("pods", 5)]
    statusUsed := [("pods", 2)]
    ownerRef := some "grq-i" }

def demoClusterInactive : Cluster :=
  ⟨[demoInactiveG], [demoManagedRQi], [⟨"ns1", 0, [], true⟩]⟩

/-- C2 counterexample. A reconcile of an inactive GlobalResourceQuota
over a cluster that still holds one of its managed ResourceQuota objects
leaves that object in place: the claim that the cleanup path removes all
managed objects fails at this input. -/
theorem c2_reconcile_counterexample :
    demoInactiveG.active = false ∧
    findGRQ demoClusterInactive.grqs "grq-i" = some demoInactiveG ∧
    managedQuotasOf (Reconcile demoClusterInactive "grq-i") "grq-i" =
      [demoManagedRQi] ∧
    managedQuotasOf (Reconcile demoClusterInactive "grq-i") "grq-i" ≠ [] := by
  refine ⟨rfl, rfl, by decide, by decide⟩

/-- C2 (amended). For every reconciliation of a GlobalResourceQuota
whose `spec.active` is false, the reconciler persists
`status.active := false` and returns immediately without touching any
ResourceQuota object: there is no cleanup path, and the cluster's
ResourceQuota set is unchanged. -/
theorem c2_reconcile_inactive_skips (c : Cluster) (requestName : String)
    (g : GlobalResourceQuota)
    (hfind : findGRQ c.grqs requestName = some g)
    (hact : g.active = false) :
    Reconcile c requestName =
      Cluster.updateGRQc c { g with statusActive := false } ∧
    (Reconcile c requestName).quotas = c.quotas := by
  have h1 : Reconcile c requestName =
      Cluster.updateGRQc c { g with statusActive := false } := by
    simp only [Reconcile, hfind, hact, Bool.not_false, if_true]
  exact ⟨h1, by rw [h1]; rfl⟩

theorem c2_reconcile_inactive_skips_witness :
    Reconcile demoClusterInactive "grq-i" =
      Cluster.updateGRQc demoClusterInactive
        { demoInactiveG with statusActive := false } ∧
    (Reconcile demoClusterInactive "grq-i").quotas =
      demoClusterInactive.quotas :=
  c2_reconcile_inactive_skips demoClusterInactive "grq-i" demoInactiveG
    (by decide) (by decide)

end Capsule
